import Mathlib

/-!
Verification development for the Binance wallet-balance server
(`server.js`, three near-duplicate variants).  The in-scope logic is:

* `calculateTotalBalance` — valuation of a balance list against a price table;
* `generateSignature` / `createSignedParams` (variants 1 and 2) and `sign`
  (variant 3) — HMAC-SHA256 request signing;
* the pure part of the `GET /api/wallet/balance` handler — rounding,
  per-asset breakdown, BTC equivalent (`balanceData`);
* the `GET /api/health` handler.

JavaScript numbers are modelled exactly: finite values as rationals, plus
`NaN` and the two infinities.  This is faithful for every claim considered
here, none of which depends on double-precision rounding of the finite
values themselves.  Strings are Lean strings; JS objects used as ordered
string maps are association lists in insertion order.
-/

set_option allowUnsafeReducibility true in
attribute [semireducible] Rat.add Rat.mul Rat.inv Rat.sub Rat.ofScientific

set_option exponentiation.threshold 2000

/-- A JavaScript number: a finite value (kept exact as a rational), `NaN`,
`Infinity` or `-Infinity`.  Negative zero is identified with zero, which is
sound for all operations used by the program. -/
inductive JNum where
  | num (q : ℚ)
  | nan
  | inf
  | negInf
deriving DecidableEq, Repr

/-- JS addition on `JNum` (IEEE semantics without signed zero). -/
def JNum.add : JNum → JNum → JNum
  | nan, _ => nan
  | num _, nan => nan
  | inf, nan => nan
  | negInf, nan => nan
  | inf, negInf => nan
  | negInf, inf => nan
  | inf, num _ => inf
  | inf, inf => inf
  | negInf, num _ => negInf
  | negInf, negInf => negInf
  | num _, inf => inf
  | num _, negInf => negInf
  | num a, num b => num (a + b)

/-- JS multiplication on `JNum`. -/
def JNum.mul : JNum → JNum → JNum
  | nan, _ => nan
  | num _, nan => nan
  | inf, nan => nan
  | negInf, nan => nan
  | inf, inf => inf
  | inf, negInf => negInf
  | negInf, inf => negInf
  | negInf, negInf => inf
  | inf, num b => if b = 0 then nan else if 0 < b then inf else negInf
  | negInf, num b => if b = 0 then nan else if 0 < b then negInf else inf
  | num a, inf => if a = 0 then nan else if 0 < a then inf else negInf
  | num a, negInf => if a = 0 then nan else if 0 < a then negInf else inf
  | num a, num b => num (a * b)

/-- JS subtraction on `JNum`. -/
def JNum.sub : JNum → JNum → JNum
  | nan, _ => nan
  | num _, nan => nan
  | inf, nan => nan
  | negInf, nan => nan
  | inf, inf => nan
  | negInf, negInf => nan
  | inf, num _ => inf
  | inf, negInf => inf
  | negInf, num _ => negInf
  | negInf, inf => negInf
  | num _, inf => negInf
  | num _, negInf => inf
  | num a, num b => num (a - b)

/-- JS division on `JNum`.  Division of a nonzero finite value by zero gives a
signed infinity, `0 / 0` gives `NaN`. -/
def JNum.div : JNum → JNum → JNum
  | nan, _ => nan
  | num _, nan => nan
  | inf, nan => nan
  | negInf, nan => nan
  | inf, inf => nan
  | inf, negInf => nan
  | negInf, inf => nan
  | negInf, negInf => nan
  | inf, num b => if 0 ≤ b then inf else negInf
  | negInf, num b => if 0 ≤ b then negInf else inf
  | num _, inf => num 0
  | num _, negInf => num 0
  | num a, num b =>
      if b = 0 then (if a = 0 then nan else if 0 < a then inf else negInf)
      else num (a / b)

/-- The JS comparison `x > 0`; false for `NaN`, true for `Infinity`. -/
def JNum.gt0 : JNum → Bool
  | num q => decide (0 < q)
  | nan => false
  | inf => true
  | negInf => false

/-- True exactly on finite values. -/
def JNum.isNum : JNum → Bool
  | num _ => true
  | _ => false

/-- The finite value carried by a `JNum`, defaulting to `0`. -/
def JNum.toQ : JNum → ℚ
  | num q => q
  | _ => 0

/-- `Math.round`: floor of `x + 1/2` on finite values (JS rounds halves toward
positive infinity); `NaN` and infinities pass through. -/
def JNum.jsRound : JNum → JNum
  | num q => num ((⌊q + 1/2⌋ : ℤ) : ℚ)
  | nan => nan
  | inf => inf
  | negInf => negInf

/-- Value of a list of decimal digit characters. -/
def digitsToNat (ds : List Char) : ℕ :=
  ds.foldl (fun acc c => 10 * acc + (c.toNat - 48)) 0

/-- Exponent suffix of a JS decimal literal (`e` or `E`, optional sign,
digits); an incomplete exponent contributes `0`, matching the
longest-valid-prefix rule of `parseFloat`. -/
def parseExponent (cs : List Char) : ℤ :=
  let signedDigits : List Char → ℤ := fun cs1 =>
    let core : Bool × List Char :=
      match cs1 with
      | '-' :: rest => (true, rest)
      | '+' :: rest => (false, rest)
      | _ => (false, cs1)
    let ds := core.2.takeWhile Char.isDigit
    if ds.isEmpty then 0
    else if core.1 then -(digitsToNat ds : ℤ) else (digitsToNat ds : ℤ)
  match cs with
  | 'e' :: rest => signedDigits rest
  | 'E' :: rest => signedDigits rest
  | _ => 0

/-- The IEEE-754 double overflow threshold: converting an exact value whose
magnitude is at least `2 ^ 1024 - 2 ^ 970` rounds (ties to even) to the
signed infinity.  Computed in `ℕ` (kernel-accelerated) and cast. -/
def doubleOverflowBound : ℚ := ((2 ^ 1024 - 2 ^ 970 : ℕ) : ℚ)

/-- Model of the JS builtin `parseFloat`: skip leading whitespace, read the
longest prefix — an optional sign followed by the `Infinity` literal or by
digits, an optional fraction and an optional exponent; `NaN` when neither
is read.  Finite magnitudes are kept exact as rationals, except that a
magnitude reaching the double overflow threshold converts to the signed
infinity, as the `Infinity` literal does — so overflowing decimals such as
1e999 yield `Infinity` exactly as in JS. -/
def parseFloat (s : String) : JNum :=
  let cs := s.data.dropWhile (fun c => c = ' ' || c = '\t' || c = '\n' || c = '\r')
  let signAndRest : Bool × List Char :=
    match cs with
    | '-' :: rest => (true, rest)
    | '+' :: rest => (false, rest)
    | _ => (false, cs)
  let cs1 := signAndRest.2
  if cs1.take 8 = "Infinity".data then
    if signAndRest.1 then JNum.negInf else JNum.inf
  else
    let ip := cs1.takeWhile Char.isDigit
    let cs2 := cs1.dropWhile Char.isDigit
    let fracAndRest : List Char × List Char :=
      match cs2 with
      | '.' :: rest => (rest.takeWhile Char.isDigit, rest.dropWhile Char.isDigit)
      | _ => ([], cs2)
    let fp := fracAndRest.1
    if ip.isEmpty && fp.isEmpty then JNum.nan
    else
      let e : ℤ := parseExponent fracAndRest.2
      let allDigits : ℕ := digitsToNat ip * 10 ^ fp.length + digitsToNat fp
      let magnitude : ℚ :=
        mkRat ((allDigits * 10 ^ e.toNat : ℕ) : ℤ)
          (10 ^ fp.length * 10 ^ (-e).toNat)
      if doubleOverflowBound ≤ magnitude then
        if signAndRest.1 then JNum.negInf else JNum.inf
      else JNum.num (if signAndRest.1 then -magnitude else magnitude)

/-- One entry of the exchange's balance list, exactly as received on the
wire: the quantities are decimal strings the program feeds to `parseFloat`. -/
structure Balance where
  asset : String
  free : String
  locked : String
deriving DecidableEq, Repr

/-- JS property read `prices[symbol]` on the price object, modelled as an
association list in insertion order with distinct keys (as produced by the
ticker loop of `getCurrentPrices`); `none` is JS `undefined`. -/
def priceLookup (prices : List (String × String)) (symbol : String) : Option String :=
  match prices with
  | [] => none
  | kv :: rest => if kv.1 = symbol then some kv.2 else priceLookup rest symbol

/-- Body of the `balances.forEach` loop of `calculateTotalBalance`
(server.js lines 52–71): parse `free` and `locked`, and when their sum is
positive add the entry's value — directly for `USDT` and `BUSD`, otherwise
via the `asset + "USDT"` price when that price string is truthy. -/
def balanceStep (prices : List (String × String)) (total : JNum) (balance : Balance) : JNum :=
  let free := parseFloat balance.free
  let locked := parseFloat balance.locked
  let totalAmount := free.add locked
  if totalAmount.gt0 then
    if balance.asset = "USDT" then total.add totalAmount
    else if balance.asset = "BUSD" then total.add totalAmount
    else
      match priceLookup prices (balance.asset ++ "USDT") with
      | some price =>
          if price = "" then total
          else total.add (totalAmount.mul (parseFloat price))
      | none => total
  else total

/-- `calculateTotalBalance` (server.js lines 49–74): fold the loop body over
the balance list starting from `0`. -/
def calculateTotalBalance (balances : List Balance) (prices : List (String × String)) : JNum :=
  balances.foldl (balanceStep prices) (JNum.num 0)

example : parseFloat "0.5" = JNum.num (1/2) := by decide
example : parseFloat "30000" = JNum.num 30000 := by decide
example : parseFloat "" = JNum.nan := by decide
example : parseFloat "abc" = JNum.nan := by decide
example : parseFloat "-2.5e1" = JNum.num (-25) := by decide
example : parseFloat "1e999" = JNum.inf := by decide
example : parseFloat "-Infinity" = JNum.negInf := by decide
example :
    calculateTotalBalance
      [⟨"BTC", "0.5", "0.1"⟩, ⟨"USDT", "100", "0"⟩]
      [("BTCUSDT", "30000")] = JNum.num 18100 := by decide

/-!
The signing layer.  `crypto.createHmac('sha256', key).update(s).digest('hex')`
is modelled by a full SHA-256 and HMAC implementation over byte lists
(bytes as naturals below 256), with strings converted through UTF-8, and the
digest rendered in lowercase hex.  `new URLSearchParams(obj).toString()` is
modelled by the application/x-www-form-urlencoded serializer.
-/

/-- UTF-8 encoding of one character, most significant byte first. -/
def utf8Bytes (c : Char) : List ℕ :=
  let n := c.toNat
  if n < 128 then [n]
  else if n < 2048 then [192 + n / 64, 128 + n % 64]
  else if n < 65536 then [224 + n / 4096, 128 + n / 64 % 64, 128 + n % 64]
  else [240 + n / 262144, 128 + n / 4096 % 64, 128 + n / 64 % 64, 128 + n % 64]

/-- UTF-8 bytes of a string. -/
def strBytes (s : String) : List ℕ :=
  s.data.foldr (fun c acc => utf8Bytes c ++ acc) []

/-- Truncation to a 32-bit word. -/
def w32 (n : ℕ) : ℕ := n % 4294967296

/-- Right rotation of a 32-bit word. -/
def shaRotr (x n : ℕ) : ℕ := x / 2 ^ n + x % 2 ^ n * 2 ^ (32 - n)

/-- The SHA-256 choice function. -/
def shaCh (x y z : ℕ) : ℕ := (x &&& y) ^^^ ((x ^^^ 4294967295) &&& z)

/-- The SHA-256 majority function. -/
def shaMaj (x y z : ℕ) : ℕ := (x &&& y) ^^^ (x &&& z) ^^^ (y &&& z)

/-- The big sigma-0 compression mix. -/
def shaBigS0 (x : ℕ) : ℕ := shaRotr x 2 ^^^ shaRotr x 13 ^^^ shaRotr x 22

/-- The big sigma-1 compression mix. -/
def shaBigS1 (x : ℕ) : ℕ := shaRotr x 6 ^^^ shaRotr x 11 ^^^ shaRotr x 25

/-- The small sigma-0 schedule mix. -/
def shaSmallS0 (x : ℕ) : ℕ := shaRotr x 7 ^^^ shaRotr x 18 ^^^ x / 2 ^ 3

/-- The small sigma-1 schedule mix. -/
def shaSmallS1 (x : ℕ) : ℕ := shaRotr x 17 ^^^ shaRotr x 19 ^^^ x / 2 ^ 10

/-- The 64 SHA-256 round constants (FIPS 180-4: the first 32 bits of the
fractional parts of the cube roots of the first 64 primes), in decimal. -/
def shaK : List ℕ :=
  [1116352408, 1899447441, 3049323471, 3921009573, 961987163,
   1508970993, 2453635748, 2870763221, 3624381080, 310598401,
   607225278, 1426881987, 1925078388, 2162078206, 2614888103,
   3248222580, 3835390401, 4022224774, 264347078, 604807628,
   770255983, 1249150122, 1555081692, 1996064986, 2554220882,
   2821834349, 2952996808, 3210313671, 3336571891, 3584528711,
   113926993, 338241895, 666307205, 773529912, 1294757372,
   1396182291, 1695183700, 1986661051, 2177026350, 2456956037,
   2730485921, 2820302411, 3259730800, 3345764771, 3516065817,
   3600352804, 4094571909, 275423344, 430227734, 506948616,
   659060556, 883997877, 958139571, 1322822218, 1537002063,
   1747873779, 1955562222, 2024104815, 2227730452, 2361852424,
   2428436474, 2756734187, 3204031479, 3329325298]

/-- The SHA-256 initial hash value (first 32 bits of the fractional parts
of the square roots of the first 8 primes), in decimal. -/
def shaH0 : List ℕ :=
  [1779033703, 3144134277, 1013904242, 2773480762,
   1359893119, 2600822924, 528734635, 1541459225]

/-- Merkle-Damgard padding: a `0x80` byte, zeros to 56 mod 64, then the bit
length as 8 big-endian bytes. -/
def shaPad (msg : List ℕ) : List ℕ :=
  let len := msg.length
  let bitLen := 8 * len
  msg ++ 128 :: List.replicate ((119 - len % 64) % 64) 0 ++
    [bitLen / 2 ^ 56 % 256, bitLen / 2 ^ 48 % 256, bitLen / 2 ^ 40 % 256,
     bitLen / 2 ^ 32 % 256, bitLen / 2 ^ 24 % 256, bitLen / 2 ^ 16 % 256,
     bitLen / 2 ^ 8 % 256, bitLen % 256]

/-- Split a byte list into 64-byte blocks (the first argument is fuel,
instantiated with the list length). -/
def shaChunksAux : ℕ → List ℕ → List (List ℕ)
  | 0, _ => []
  | _, [] => []
  | fuel + 1, l => l.take 64 :: shaChunksAux fuel (l.drop 64)

/-- The 64-byte blocks of a padded message. -/
def shaChunks (l : List ℕ) : List (List ℕ) := shaChunksAux l.length l

/-- Big-endian 32-bit words of a block. -/
def shaWordsOfBlock : List ℕ → List ℕ
  | b0 :: b1 :: b2 :: b3 :: rest =>
      (((b0 * 256 + b1) * 256 + b2) * 256 + b3) :: shaWordsOfBlock rest
  | _ => []

/-- Extend the message schedule; the accumulator holds the words most recent
first, so the words 2, 7, 15 and 16 places back sit at indices 1, 6, 14, 15. -/
def shaExtend : ℕ → List ℕ → List ℕ
  | 0, rws => rws
  | fuel + 1, rws =>
      shaExtend fuel
        (w32 (shaSmallS1 (rws.getD 1 0) + rws.getD 6 0 +
              shaSmallS0 (rws.getD 14 0) + rws.getD 15 0) :: rws)

/-- The 64-word message schedule of a block. -/
def shaSchedule (block : List ℕ) : List ℕ :=
  (shaExtend 48 (shaWordsOfBlock block).reverse).reverse

/-- The eight working variables of the compression loop. -/
structure ShaState where
  a : ℕ
  b : ℕ
  c : ℕ
  d : ℕ
  e : ℕ
  f : ℕ
  g : ℕ
  h : ℕ

/-- One round of the compression loop, fed one round constant and one
schedule word. -/
def shaRound (st : ShaState) (kw : ℕ × ℕ) : ShaState :=
  let t1 := w32 (st.h + shaBigS1 st.e + shaCh st.e st.f st.g + kw.1 + kw.2)
  let t2 := w32 (shaBigS0 st.a + shaMaj st.a st.b st.c)
  ⟨w32 (t1 + t2), st.a, st.b, st.c, w32 (st.d + t1), st.e, st.f, st.g⟩

/-- Compress one 64-byte block into the running hash (eight 32-bit words). -/
def shaCompress (hs : List ℕ) (block : List ℕ) : List ℕ :=
  let fin := (shaK.zip (shaSchedule block)).foldl shaRound
    ⟨hs.getD 0 0, hs.getD 1 0, hs.getD 2 0, hs.getD 3 0,
     hs.getD 4 0, hs.getD 5 0, hs.getD 6 0, hs.getD 7 0⟩
  [w32 (hs.getD 0 0 + fin.a), w32 (hs.getD 1 0 + fin.b),
   w32 (hs.getD 2 0 + fin.c), w32 (hs.getD 3 0 + fin.d),
   w32 (hs.getD 4 0 + fin.e), w32 (hs.getD 5 0 + fin.f),
   w32 (hs.getD 6 0 + fin.g), w32 (hs.getD 7 0 + fin.h)]

/-- Big-endian bytes of a 32-bit word. -/
def shaWordBytes (w : ℕ) : List ℕ :=
  [w / 2 ^ 24 % 256, w / 2 ^ 16 % 256, w / 2 ^ 8 % 256, w % 256]

/-- SHA-256 of a byte list, as 32 bytes. -/
def sha256 (msg : List ℕ) : List ℕ :=
  ((shaChunks (shaPad msg)).foldl shaCompress shaH0).foldr
    (fun w acc => shaWordBytes w ++ acc) []

/-- HMAC-SHA256 of a message under a key, both byte lists, per RFC 2104 with
a 64-byte block size. -/
def hmacSha256 (key msg : List ℕ) : List ℕ :=
  let k1 := if 64 < key.length then sha256 key else key
  let k0 := k1 ++ List.replicate (64 - k1.length) 0
  sha256 (k0.map (fun b => b ^^^ 92) ++ sha256 (k0.map (fun b => b ^^^ 54) ++ msg))

/-- The lowercase hex digit of a value below 16: the decimal digits at
code points 48 to 57, then the letters at 97 to 102. -/
def hexDigit (n : ℕ) : Char :=
  Char.ofNat (if n < 10 then 48 + n else 87 + n)

/-- The sixteen lowercase hex digits. -/
def hexCharsLower : List Char := (List.range 16).map hexDigit

/-- Lowercase hex rendering of a byte list, two digits per byte. -/
def bytesToHex (bs : List ℕ) : String :=
  String.mk (bs.foldr (fun b acc => hexDigit (b / 16 % 16) :: hexDigit (b % 16) :: acc) [])

/-- Node's `createHmac('sha256', key).update(msg).digest('hex')` on string
inputs: UTF-8 both, HMAC, lowercase hex. -/
def hmacSha256Hex (key msg : String) : String :=
  bytesToHex (hmacSha256 (strBytes key) (strBytes msg))


set_option maxRecDepth 40000 in
/-- Sanity check of the hash model against the FIPS 180-2 test vector for
the string abc. -/
theorem sha256_fips_vector :
    bytesToHex (sha256 (strBytes "abc")) =
      "ba7816bf8f01cfea414140de5dae2223b00361a396177a9cb410ff61f20015ad" := by decide

set_option maxRecDepth 100000 in
/-- Sanity check of the HMAC model against the well-known RFC 2104 era test
vector (key, quick brown fox). -/
theorem hmacSha256_known_vector :
    hmacSha256Hex "key" "The quick brown fox jumps over the lazy dog" =
      "f7bc83f430538424b13298e6aa6fb143ef4d59a14946175997479dbc2d1a3cd8" := by decide

/-- Characters the application/x-www-form-urlencoded serializer leaves as
themselves: ASCII alphanumerics and asterisk, minus, period, underscore. -/
def formUnreserved (c : Char) : Bool :=
  ('a' ≤ c && c ≤ 'z') || ('A' ≤ c && c ≤ 'Z') || ('0' ≤ c && c ≤ '9') ||
    c = '*' || c = '-' || c = '.' || c = '_'

/-- The uppercase hex digit of a value below 16, for percent escapes: the
decimal digits at code points 48 to 57, then the letters at 65 to 70. -/
def hexDigitUpper (n : ℕ) : Char :=
  Char.ofNat (if n < 10 then 48 + n else 55 + n)

/-- A percent escape for one byte. -/
def percentEscape (b : ℕ) : List Char :=
  ['%', hexDigitUpper (b / 16 % 16), hexDigitUpper (b % 16)]

/-- One character under the form-urlencoded serializer: space becomes plus,
unreserved characters stay, everything else is percent-escaped by UTF-8
byte. -/
def formEncodeChar (c : Char) : List Char :=
  if c = ' ' then ['+']
  else if formUnreserved c then [c]
  else (utf8Bytes c).foldr (fun b acc => percentEscape b ++ acc) []

/-- Form-urlencoded serialization of one string. -/
def formEncode (s : String) : String :=
  String.mk (s.data.foldr (fun c acc => formEncodeChar c ++ acc) [])

/-- `new URLSearchParams(obj).toString()`: the object's entries in insertion
order as key=value, joined by ampersands, both sides form-encoded. -/
def urlSearchParamsToString (params : List (String × String)) : String :=
  String.intercalate "&" (params.map (fun kv => formEncode kv.1 ++ "=" ++ formEncode kv.2))

/-- `generateSignature` (server.js lines 21–29, identical in variant 2):
throws when the secret is falsy, else the hex HMAC-SHA256 of the query
string under the secret.  The process-wide `SECRET_KEY` is passed as an
argument, the absent environment variable modelled as the empty string
(both are falsy); the thrown `Error` is the `Except.error` case. -/
def generateSignature (secretKey queryString : String) : Except String String :=
  if secretKey = "" then Except.error "SECRET_KEY is not configured"
  else Except.ok (hmacSha256Hex secretKey queryString)

/-- `createSignedParams` (server.js lines 32–46, identical in variant 2):
inject `timestamp` (the injected clock value, in epoch milliseconds),
serialize with `URLSearchParams`, sign, and return the parameters plus
`timestamp` plus `signature`.  Objects are modelled as association lists in
insertion order; the model assumes the caller's parameters do not already
contain a `timestamp` or `signature` key (true of every call site). -/
def createSignedParams (secretKey : String) (now : ℕ)
    (params : List (String × String)) : Except String (List (String × String)) :=
  let queryString := urlSearchParamsToString (params ++ [("timestamp", toString now)])
  match generateSignature secretKey queryString with
  | Except.error e => Except.error e
  | Except.ok signature =>
      Except.ok (params ++ [("timestamp", toString now), ("signature", signature)])

/-- `sign` (server.js lines 1096–1101, variant 3): same as
`createSignedParams` but with no secret check at all — Node's `createHmac`
accepts the empty string as a key, so an empty secret signs successfully.
The `Except` result type records a thrown error; no string secret throws. -/
def sign (secretKey : String) (now : ℕ)
    (params : List (String × String)) : Except String (List (String × String)) :=
  let queryString := urlSearchParamsToString (params ++ [("timestamp", toString now)])
  let signature := hmacSha256Hex secretKey queryString
  Except.ok (params ++ [("timestamp", toString now), ("signature", signature)])

example : urlSearchParamsToString [("a", "1"), ("timestamp", "1700000000000")] =
    "a=1&timestamp=1700000000000" := by decide
example : formEncode "a b&c=" = "a+b%26c%3D" := by decide

/-!
The pure part of the `GET /api/wallet/balance` handler (server.js lines
141–203, identical in variant 2 up to the stubbed day-change field): the
zero-balance filter, the three valuations, cent rounding, the per-asset
breakdown and the BTC equivalent.  Pass-through fields (timestamps, account
flags, permissions) and the stubbed `dayChangePercent` carry no logic and
are not modelled.
-/

/-- The zero-balance filter (lines 141–143): keep entries whose parsed
`free` or parsed `locked` is positive. -/
def nonZeroBalances (balances : List Balance) : List Balance :=
  balances.filter (fun b => (parseFloat b.free).gt0 || (parseFloat b.locked).gt0)

/-- `Math.round(x * 100) / 100`, the cent rounding applied to the three
reported totals (lines 175–177). -/
def roundCents (x : JNum) : JNum :=
  ((x.mul (JNum.num 100)).jsRound).div (JNum.num 100)

/-- `Number.prototype.toFixed(digits)` on the exact value: the decimal
string with `digits` fractional digits, ties away from zero (ECMA-262 picks
the larger candidate for the magnitude after splitting off the sign);
`NaN` and infinities render as their JS strings. -/
def jsToFixed (x : JNum) (digits : ℕ) : String :=
  let render : ℕ → String := fun m =>
    if digits = 0 then toString m
    else
      let frac := toString (m % 10 ^ digits)
      toString (m / 10 ^ digits) ++ "." ++
        String.mk (List.replicate (digits - frac.length) '0') ++ frac
  match x with
  | JNum.nan => "NaN"
  | JNum.inf => "Infinity"
  | JNum.negInf => "-Infinity"
  | JNum.num q =>
      if q < 0 then "-" ++ render (⌊-q * (10 : ℚ) ^ digits + 1/2⌋).toNat
      else render (⌊q * (10 : ℚ) ^ digits + 1/2⌋).toNat

/-- One element of the response's `balances` array (lines 182–192). -/
structure PerAssetEntry where
  asset : String
  free : JNum
  locked : JNum
  total : JNum
  usdtValue : JNum
deriving DecidableEq, Repr

/-- The per-asset mapping of lines 182–192: parsed quantities, their sum,
and the quote value — the sum itself for `USDT`, otherwise sum times the
`asset + "USDT"` price when that price string is truthy, else `0`. -/
def mkPerAsset (prices : List (String × String)) (b : Balance) : PerAssetEntry :=
  let free := parseFloat b.free
  let locked := parseFloat b.locked
  { asset := b.asset
    free := free
    locked := locked
    total := free.add locked
    usdtValue :=
      if b.asset = "USDT" then free.add locked
      else
        match priceLookup prices (b.asset ++ "USDT") with
        | some price =>
            if price = "" then JNum.num 0
            else (free.add locked).mul (parseFloat price)
        | none => JNum.num 0 }

/-- The computational fields of the `balanceData` response object. -/
structure BalanceData where
  total : JNum
  available : JNum
  inOrders : JNum
  balances : List PerAssetEntry
  btcValue : Option String
deriving DecidableEq, Repr

/-- The `balanceData` assembly (lines 141–203): filter zero balances, value
them three ways (`available` re-runs the valuation with every `locked`
replaced by the string 0, `inOrders` is the difference), round to cents,
build the per-asset array filtered to positive totals, and attach the BTC
equivalent when the `BTCUSDT` price string is truthy. -/
def balanceData (accountBalances : List Balance)
    (prices : List (String × String)) : BalanceData :=
  let nz := nonZeroBalances accountBalances
  let totalBalance := calculateTotalBalance nz prices
  let availableBalance :=
    calculateTotalBalance (nz.map (fun b => { b with locked := "0" })) prices
  let lockedBalance := totalBalance.sub availableBalance
  { total := roundCents totalBalance
    available := roundCents availableBalance
    inOrders := roundCents lockedBalance
    balances := (nz.map (mkPerAsset prices)).filter (fun e => e.total.gt0)
    btcValue :=
      match priceLookup prices "BTCUSDT" with
      | some btcPrice =>
          if btcPrice = "" then none
          else some (jsToFixed (totalBalance.div (parseFloat btcPrice)) 8)
      | none => none }

/-- The response of `GET /api/health` (lines 94–102; variant 2's version at
lines 407–425 adds debug fields but computes the two flags the same way).
`res.json` replies with HTTP status 200. -/
structure HealthResponse where
  status : ℕ
  apiKeyConfigured : Bool
  secretKeyConfigured : Bool
deriving DecidableEq, Repr

/-- JS double-bang truthiness of an environment variable: `undefined`
(absent) and the empty string are falsy. -/
def envTruthy : Option String → Bool
  | none => false
  | some s => s ≠ ""

/-- The health handler: a total function — it consults nothing but the two
environment values and cannot throw — answering 200 with the two
configuration flags. -/
def healthHandler (apiKey secretKey : Option String) : HealthResponse :=
  { status := 200
    apiKeyConfigured := envTruthy apiKey
    secretKeyConfigured := envTruthy secretKey }

example :
    balanceData [⟨"BTC", "0.5", "0.1"⟩, ⟨"USDT", "100", "0"⟩] [("BTCUSDT", "30000")] =
      { total := JNum.num 18100, available := JNum.num 15100, inOrders := JNum.num 3000,
        balances := [⟨"BTC", JNum.num (1/2), JNum.num (1/10), JNum.num (3/5), JNum.num 18000⟩,
                     ⟨"USDT", JNum.num 100, JNum.num 0, JNum.num 100, JNum.num 100⟩],
        btcValue := some "0.60333333" } := by decide

/-!
Spec-side valuation, well-formedness predicates, and helper lemmas.
-/

/-- One entry's value under the spec's three-way rule, written from the
spec's words for comparison with the code: for an entry with positive
total, the total itself for the quote currency `USDT` or the pegged asset
`BUSD`, otherwise total times the price found under `asset + "USDT"`, and
`0` when no price entry exists. -/
def specContribution (prices : List (String × String)) (b : Balance) : JNum :=
  let t := (parseFloat b.free).add (parseFloat b.locked)
  if t.gt0 then
    if b.asset = "USDT" then t
    else if b.asset = "BUSD" then t
    else
      match priceLookup prices (b.asset ++ "USDT") with
      | some p => t.mul (parseFloat p)
      | none => JNum.num 0
  else JNum.num 0

/-- The spec's valuation: the sum of the per-entry contributions. -/
def specTotalValuation (balances : List Balance) (prices : List (String × String)) : JNum :=
  balances.foldl (fun acc b => acc.add (specContribution prices b)) (JNum.num 0)

/-- Every price value in the table is a decimal that parses to a finite
number — the domain of the spec's `PriceTable` (a mapping to non-negative
decimal prices). -/
def pricesParseOK (prices : List (String × String)) : Bool :=
  prices.all (fun kv => (parseFloat kv.2).isNum)

/-- Every price value either is the empty string (falsy, so skipped by the
code) or parses to a finite number. -/
def pricesOK (prices : List (String × String)) : Bool :=
  prices.all (fun kv => kv.2 = "" || (parseFloat kv.2).isNum)

/-- Both quantity fields of a balance entry parse to finite numbers. -/
def entryParses (b : Balance) : Bool :=
  (parseFloat b.free).isNum && (parseFloat b.locked).isNum

/-- A `JNum` that is a non-negative finite number. -/
def nonnegNum : JNum → Bool
  | JNum.num q => decide (0 ≤ q)
  | _ => false

/-- Both quantity fields of every entry parse to non-negative finite
numbers — the spec's `AssetBalance` data model. -/
def wfBalances (bs : List Balance) : Bool :=
  bs.all (fun b => nonnegNum (parseFloat b.free) && nonnegNum (parseFloat b.locked))

theorem JNum.add_num_zero (x : JNum) : x.add (JNum.num 0) = x := by
  cases x <;> simp [JNum.add]

theorem parseFloat_empty : parseFloat "" = JNum.nan := by decide

theorem parseFloat_zero : parseFloat "0" = JNum.num 0 := by decide

/-- A value looked up in a table whose values all satisfy `Q` satisfies
`Q`. -/
theorem priceLookup_all (Q : String → Bool) :
    ∀ (ps : List (String × String)) (s p : String),
      ps.all (fun kv => Q kv.2) = true → priceLookup ps s = some p → Q p = true := by
  intro ps
  induction ps with
  | nil => intro s p _ h; simp [priceLookup] at h
  | cons kv rest ih =>
      intro s p hall hlk
      rw [List.all_cons, Bool.and_eq_true] at hall
      unfold priceLookup at hlk
      by_cases hk : kv.1 = s
      · rw [if_pos hk] at hlk
        cases hlk
        exact hall.1
      · rw [if_neg hk] at hlk
        exact ih s p hall.2 hlk

/-- Under a table of parseable prices, one step of the code's loop adds
exactly the spec's contribution. -/
theorem balanceStep_eq_specContribution (ps : List (String × String))
    (hps : pricesParseOK ps = true) (acc : JNum) (b : Balance) :
    balanceStep ps acc b = acc.add (specContribution ps b) := by
  unfold pricesParseOK at hps
  unfold balanceStep specContribution
  by_cases hgt : ((parseFloat b.free).add (parseFloat b.locked)).gt0 = true
  · simp only [hgt, if_true]
    by_cases hu : b.asset = "USDT"
    · simp [hu]
    · by_cases hb : b.asset = "BUSD"
      · simp [hu, hb]
      · simp only [hu, hb, if_false]
        cases hlk : priceLookup ps (b.asset ++ "USDT") with
        | none => simp [JNum.add_num_zero]
        | some p =>
            have hp : (parseFloat p).isNum = true :=
              priceLookup_all (fun v => (parseFloat v).isNum) ps _ p hps hlk
            have hpne : ¬(p = "") := by
              intro h
              rw [h, parseFloat_empty] at hp
              simp [JNum.isNum] at hp
            simp [hpne]
  · simp only [Bool.not_eq_true] at hgt
    simp [hgt, JNum.add_num_zero]

/-- C1: for every list of balances and every price table (a table of
decimal prices, each parsing to a finite number, as the spec's data model
defines a price table), `calculateTotalBalance` equals the spec's sum over
exactly the entries with positive `free + locked` of: the total directly
for the quote currency `USDT` and the pegged asset `BUSD`, else total times
the price under `asset + "USDT"`, and `0` when no price entry exists. -/
theorem calculateTotalBalance_matches_spec (balances : List Balance)
    (prices : List (String × String)) (hps : pricesParseOK prices = true) :
    calculateTotalBalance balances prices = specTotalValuation balances prices := by
  unfold calculateTotalBalance specTotalValuation
  exact List.foldl_ext (balanceStep prices)
    (fun acc b => acc.add (specContribution prices b)) (JNum.num 0)
    (fun acc b _ => balanceStep_eq_specContribution prices hps acc b)

/-- C1 witness: the equality evaluated at the end-to-end scenario input. -/
theorem calculateTotalBalance_matches_spec_witness :
    pricesParseOK [("BTCUSDT", "30000")] = true ∧
    calculateTotalBalance [⟨"BTC", "0.5", "0.1"⟩, ⟨"USDT", "100", "0"⟩]
        [("BTCUSDT", "30000")] =
      specTotalValuation [⟨"BTC", "0.5", "0.1"⟩, ⟨"USDT", "100", "0"⟩]
        [("BTCUSDT", "30000")] :=
  ⟨by decide, calculateTotalBalance_matches_spec _ _ (by decide)⟩

theorem JNum.isNum_iff (x : JNum) : x.isNum = true ↔ ∃ q : ℚ, x = JNum.num q := by
  cases x <;> simp [JNum.isNum]

/-- The rational conversion rate the code applies to one asset: `1` for the
quote currency `USDT` and the pegged `BUSD`, the parsed price when the
`asset + "USDT"` entry exists (`0` when it is empty or unparseable, which
under `pricesOK` only the skipped empty string can be), else `0`. -/
def rateQ (prices : List (String × String)) (asset : String) : ℚ :=
  if asset = "USDT" then 1
  else if asset = "BUSD" then 1
  else
    match priceLookup prices (asset ++ "USDT") with
    | some p => (parseFloat p).toQ
    | none => 0

/-- The rational value one parseable entry adds to the total: its parsed
sum times its rate, when the sum is positive. -/
def contribQ (prices : List (String × String)) (b : Balance) : ℚ :=
  let f := (parseFloat b.free).toQ
  let l := (parseFloat b.locked).toQ
  if 0 < f + l then (f + l) * rateQ prices b.asset else 0

theorem nonnegNum_isNum (x : JNum) (h : nonnegNum x = true) : x.isNum = true := by
  cases x <;> simp_all [nonnegNum, JNum.isNum]

/-- On a parseable entry over a `pricesOK` table, one loop step adds the
entry's rational contribution. -/
theorem balanceStep_num (ps : List (String × String)) (hps : pricesOK ps = true)
    (b : Balance) (qf ql : ℚ) (hf : parseFloat b.free = JNum.num qf)
    (hl : parseFloat b.locked = JNum.num ql) (a : ℚ) :
    balanceStep ps (JNum.num a) b = JNum.num (a + contribQ ps b) := by
  have hadd : (JNum.num qf).add (JNum.num ql) = JNum.num (qf + ql) := rfl
  by_cases h : 0 < qf + ql
  · have hg : (JNum.num (qf + ql)).gt0 = true := by simp [JNum.gt0, h]
    simp only [balanceStep, contribQ, hf, hl, JNum.toQ, hadd, hg, if_true, h]
    by_cases hu : b.asset = "USDT"
    · have hu2 : (b.asset = "USDT") = True := by simp [hu]
      have hrate : rateQ ps b.asset = 1 := by simp [rateQ, hu]
      simp only [hu2, if_true, JNum.add, hrate, JNum.num.injEq]
      ring
    · by_cases hbu : b.asset = "BUSD"
      · have hbu2 : (b.asset = "BUSD") = True := by simp [hbu]
        have hrate : rateQ ps b.asset = 1 := by simp [rateQ, hu, hbu]
        simp only [hu, hbu2, if_false, if_true, JNum.add, hrate, JNum.num.injEq]
        ring
      · simp only [hu, hbu, if_false]
        have hrm : rateQ ps b.asset =
            match priceLookup ps (b.asset ++ "USDT") with
            | some p => (parseFloat p).toQ
            | none => (0 : ℚ) := by
          simp [rateQ, hu, hbu]
        rw [hrm]
        cases hlk : priceLookup ps (b.asset ++ "USDT") with
        | none =>
            simp only [JNum.num.injEq]
            ring
        | some p =>
            by_cases hpe : p = ""
            · subst hpe
              simp only [if_true, parseFloat_empty, JNum.toQ, JNum.num.injEq]
              ring
            · have hp : (p = "" || (parseFloat p).isNum) = true :=
                priceLookup_all (fun v => (v = "" || (parseFloat v).isNum)) ps _ p
                  (by unfold pricesOK at hps; exact hps) hlk
              rw [Bool.or_eq_true] at hp
              rcases hp with hp | hp
              · exact absurd (by simpa using hp) hpe
              · obtain ⟨qp, hqp⟩ := (JNum.isNum_iff _).1 hp
                simp only [hpe, if_false, hqp, JNum.add, JNum.mul, JNum.toQ, JNum.num.injEq]
  · have hg : (JNum.num (qf + ql)).gt0 = false := by simp [JNum.gt0, h]
    simp only [balanceStep, contribQ, hf, hl, JNum.toQ, hadd, hg, h, if_false,
      Bool.false_eq_true, JNum.num.injEq]
    ring

/-- Folding the loop over parseable entries from a finite accumulator sums
the rational contributions. -/
theorem foldl_balanceStep_sum (ps : List (String × String)) (hps : pricesOK ps = true) :
    ∀ (bs : List Balance), bs.all entryParses = true → ∀ (a : ℚ),
      bs.foldl (balanceStep ps) (JNum.num a) =
        JNum.num (a + ((bs.map (contribQ ps)).sum)) := by
  intro bs
  induction bs with
  | nil => intro _ a; simp
  | cons b rest ih =>
      intro hall a
      rw [List.all_cons, Bool.and_eq_true] at hall
      have hbp := hall.1
      unfold entryParses at hbp
      rw [Bool.and_eq_true] at hbp
      obtain ⟨qf, hf⟩ := (JNum.isNum_iff _).1 hbp.1
      obtain ⟨ql, hl⟩ := (JNum.isNum_iff _).1 hbp.2
      rw [List.foldl_cons, balanceStep_num ps hps b qf ql hf hl a,
        ih hall.2 (a + contribQ ps b), List.map_cons, List.sum_cons, add_assoc]

theorem parseFloat_zero_nonneg : nonnegNum (parseFloat "0") = true := by decide

/-- A non-negative parseable entry's contribution splits exactly into the
contributions of its locked-zeroed and free-zeroed copies. -/
theorem contribQ_split (ps : List (String × String)) (b : Balance)
    (hf : nonnegNum (parseFloat b.free) = true)
    (hl : nonnegNum (parseFloat b.locked) = true) :
    contribQ ps b =
      contribQ ps { b with locked := "0" } + contribQ ps { b with free := "0" } := by
  obtain ⟨qf, hqf⟩ := (JNum.isNum_iff _).1 (nonnegNum_isNum _ hf)
  obtain ⟨ql, hql⟩ := (JNum.isNum_iff _).1 (nonnegNum_isNum _ hl)
  have hf0 : 0 ≤ qf := by rw [hqf] at hf; simpa [nonnegNum] using hf
  have hl0 : 0 ≤ ql := by rw [hql] at hl; simpa [nonnegNum] using hl
  have hfree : parseFloat ({ b with locked := "0" } : Balance).free = JNum.num qf := hqf
  have hlock : parseFloat ({ b with free := "0" } : Balance).locked = JNum.num ql := hql
  simp only [contribQ, hqf, hql, hfree, hlock,
    show ({ b with locked := "0" } : Balance).locked = "0" from rfl,
    show ({ b with free := "0" } : Balance).free = "0" from rfl,
    show ({ b with locked := "0" } : Balance).asset = b.asset from rfl,
    show ({ b with free := "0" } : Balance).asset = b.asset from rfl,
    parseFloat_zero, JNum.toQ]
  rcases lt_or_eq_of_le hf0 with hfpos | hfzero
  · rcases lt_or_eq_of_le hl0 with hlpos | hlzero
    · have h1 : 0 < qf + ql := by linarith
      simp only [h1, hfpos, hlpos, if_true]
      simp only [show (0:ℚ) + ql = ql from by ring, show qf + (0:ℚ) = qf from by ring,
        hlpos, hfpos, if_true]
      ring
    · have h1 : 0 < qf + ql := by rw [← hlzero]; simpa using hfpos
      simp only [← hlzero, h1, hfpos, if_true]
      simp only [show qf + (0:ℚ) = qf from by ring, show (0:ℚ) + (0:ℚ) = 0 from by ring,
        hfpos, if_true, lt_irrefl, if_false]
      ring
  · rcases lt_or_eq_of_le hl0 with hlpos | hlzero
    · have h1 : 0 < qf + ql := by rw [← hfzero]; simpa using hlpos
      simp only [← hfzero, h1, hlpos, if_true]
      simp only [show (0:ℚ) + ql = ql from by ring, show (0:ℚ) + (0:ℚ) = 0 from by ring,
        hlpos, if_true, lt_irrefl, if_false]
      ring
    · simp only [← hfzero, ← hlzero]
      norm_num

theorem wfBalances_mem (bs : List Balance) (h : wfBalances bs = true) (b : Balance)
    (hb : b ∈ bs) :
    nonnegNum (parseFloat b.free) = true ∧ nonnegNum (parseFloat b.locked) = true := by
  unfold wfBalances at h
  rw [List.all_eq_true] at h
  have := h b hb
  rwa [Bool.and_eq_true] at this

theorem wfBalances_filter (p : Balance → Bool) (bs : List Balance)
    (h : wfBalances bs = true) : wfBalances (bs.filter p) = true := by
  unfold wfBalances at h ⊢
  rw [List.all_eq_true] at h ⊢
  exact fun b hb => h b (List.mem_of_mem_filter hb)

theorem wfBalances_zeroLocked (bs : List Balance) (h : wfBalances bs = true) :
    wfBalances (bs.map (fun b => { b with locked := "0" })) = true := by
  unfold wfBalances at h ⊢
  rw [List.all_eq_true] at h ⊢
  intro b hb
  rw [List.mem_map] at hb
  obtain ⟨b0, hb0, rfl⟩ := hb
  have h0 := h b0 hb0
  rw [Bool.and_eq_true] at h0 ⊢
  exact ⟨h0.1, parseFloat_zero_nonneg⟩

theorem wfBalances_zeroFree (bs : List Balance) (h : wfBalances bs = true) :
    wfBalances (bs.map (fun b => { b with free := "0" })) = true := by
  unfold wfBalances at h ⊢
  rw [List.all_eq_true] at h ⊢
  intro b hb
  rw [List.mem_map] at hb
  obtain ⟨b0, hb0, rfl⟩ := hb
  have h0 := h b0 hb0
  rw [Bool.and_eq_true] at h0 ⊢
  exact ⟨parseFloat_zero_nonneg, h0.2⟩

theorem wfBalances_entryParses (bs : List Balance) (h : wfBalances bs = true) :
    bs.all entryParses = true := by
  rw [List.all_eq_true]
  intro b hb
  have h0 := wfBalances_mem bs h b hb
  unfold entryParses
  rw [Bool.and_eq_true]
  exact ⟨nonnegNum_isNum _ h0.1, nonnegNum_isNum _ h0.2⟩

/-- Summed form of the linearity: over non-negative entries, the total
contribution is the locked-zeroed contribution plus the free-zeroed one. -/
theorem contribQ_sum_split (ps : List (String × String)) (bs : List Balance)
    (hw : wfBalances bs = true) :
    ((bs.map (contribQ ps)).sum) =
      (((bs.map (fun b => { b with locked := "0" })).map (contribQ ps)).sum) +
      (((bs.map (fun b => { b with free := "0" })).map (contribQ ps)).sum) := by
  induction bs with
  | nil => simp
  | cons b rest ih =>
      have hmem := wfBalances_mem _ hw b (List.mem_cons_self b rest)
      have hrest : wfBalances rest = true := by
        unfold wfBalances at hw ⊢
        rw [List.all_eq_true] at hw ⊢
        exact fun x hx => hw x (List.mem_cons_of_mem _ hx)
      simp only [List.map_cons, List.sum_cons, ih hrest,
        contribQ_split ps b hmem.1 hmem.2]
      ring

/-- `calculateTotalBalance` over non-negative entries and a `pricesOK`
table is the finite sum of the rational contributions. -/
theorem calculateTotalBalance_sum (bs : List Balance) (ps : List (String × String))
    (hps : pricesOK ps = true) (hw : wfBalances bs = true) :
    calculateTotalBalance bs ps = JNum.num (((bs.map (contribQ ps)).sum)) := by
  unfold calculateTotalBalance
  rw [foldl_balanceStep_sum ps hps bs (wfBalances_entryParses bs hw) 0, zero_add]

theorem roundCents_num (x : ℚ) :
    roundCents (JNum.num x) = JNum.num ((⌊x * 100 + 1/2⌋ : ℤ) / 100) := by
  unfold roundCents
  have h1 : (JNum.num x).mul (JNum.num 100) = JNum.num (x * 100) := rfl
  rw [h1]
  have h2 : (JNum.num (x * 100)).jsRound = JNum.num ((⌊x * 100 + 1/2⌋ : ℤ) : ℚ) := rfl
  rw [h2]
  unfold JNum.div
  norm_num

/-- The cent-rounding bound: rounding a sum and its two parts separately to
cents moves the identity by at most one cent. -/
theorem round_cents_close (A O : ℚ) :
    |((⌊(A + O) * 100 + 1/2⌋ : ℤ) : ℚ) / 100 -
      (((⌊A * 100 + 1/2⌋ : ℤ) : ℚ) / 100 + ((⌊O * 100 + 1/2⌋ : ℤ) : ℚ) / 100)| ≤ 1/100 := by
  have hXY : (A + O) * 100 = A * 100 + O * 100 := by ring
  rw [hXY]
  rw [← round_eq (A * 100 + O * 100), ← round_eq (A * 100), ← round_eq (O * 100)]
  set X := A * 100
  set Y := O * 100
  set d : ℤ := round (X + Y) - round X - round Y with hd
  have hdq : ((round (X + Y) : ℤ) : ℚ) / 100 -
      (((round X : ℤ) : ℚ) / 100 + ((round Y : ℤ) : ℚ) / 100) = (d : ℚ) / 100 := by
    rw [hd]
    push_cast
    ring
  rw [hdq]
  have h1 : |(d : ℚ)| ≤ 3/2 := by
    have e1 : |((round (X + Y) : ℤ) : ℚ) - (X + Y)| ≤ 1/2 := by
      rw [abs_sub_comm]
      exact abs_sub_round (X + Y)
    have e2 : |((round X : ℤ) : ℚ) - X| ≤ 1/2 := by
      rw [abs_sub_comm]
      exact abs_sub_round X
    have e3 : |((round Y : ℤ) : ℚ) - Y| ≤ 1/2 := by
      rw [abs_sub_comm]
      exact abs_sub_round Y
    have hsplit : (d : ℚ) =
        (((round (X + Y) : ℤ) : ℚ) - (X + Y)) - (((round X : ℤ) : ℚ) - X) -
          (((round Y : ℤ) : ℚ) - Y) := by
      rw [hd]
      push_cast
      ring
    calc |(d : ℚ)| = |(((round (X + Y) : ℤ) : ℚ) - (X + Y)) - (((round X : ℤ) : ℚ) - X) -
          (((round Y : ℤ) : ℚ) - Y)| := by rw [hsplit]
      _ ≤ |((round (X + Y) : ℤ) : ℚ) - (X + Y)| + |((round X : ℤ) : ℚ) - X| +
          |((round Y : ℤ) : ℚ) - Y| := by
            calc |(((round (X + Y) : ℤ) : ℚ) - (X + Y)) - (((round X : ℤ) : ℚ) - X) -
                (((round Y : ℤ) : ℚ) - Y)|
                ≤ |(((round (X + Y) : ℤ) : ℚ) - (X + Y)) - (((round X : ℤ) : ℚ) - X)| +
                  |((round Y : ℤ) : ℚ) - Y| := abs_sub _ _
              _ ≤ |((round (X + Y) : ℤ) : ℚ) - (X + Y)| + |((round X : ℤ) : ℚ) - X| +
                  |((round Y : ℤ) : ℚ) - Y| := by
                    have := abs_sub (((round (X + Y) : ℤ) : ℚ) - (X + Y))
                      (((round X : ℤ) : ℚ) - X)
                    linarith
      _ ≤ 3/2 := by linarith
  have h2 : |d| ≤ 1 := by
    by_contra hcon
    push_neg at hcon
    have : (2 : ℤ) ≤ |d| := hcon
    have : (2 : ℚ) ≤ |(d : ℚ)| := by
      rw [← Int.cast_abs]
      exact_mod_cast this
    linarith
  have : |(d : ℚ)| ≤ 1 := by
    rw [← Int.cast_abs]
    exact_mod_cast h2
  rw [abs_div]
  have h100 : |(100 : ℚ)| = 100 := by norm_num
  rw [h100]
  linarith

theorem balanceData_total (bs : List Balance) (ps : List (String × String)) :
    (balanceData bs ps).total =
      roundCents (calculateTotalBalance (nonZeroBalances bs) ps) := by
  simp [balanceData]

theorem balanceData_available (bs : List Balance) (ps : List (String × String)) :
    (balanceData bs ps).available =
      roundCents (calculateTotalBalance
        ((nonZeroBalances bs).map (fun b => { b with locked := "0" })) ps) := by
  simp [balanceData]

theorem balanceData_inOrders (bs : List Balance) (ps : List (String × String)) :
    (balanceData bs ps).inOrders =
      roundCents ((calculateTotalBalance (nonZeroBalances bs) ps).sub
        (calculateTotalBalance
          ((nonZeroBalances bs).map (fun b => { b with locked := "0" })) ps)) := by
  simp [balanceData]

theorem balanceData_perAsset (bs : List Balance) (ps : List (String × String)) :
    (balanceData bs ps).balances =
      ((nonZeroBalances bs).map (mkPerAsset ps)).filter (fun e => e.total.gt0) := by
  simp [balanceData]

theorem balanceData_btcValue (bs : List Balance) (ps : List (String × String)) :
    (balanceData bs ps).btcValue =
      match priceLookup ps "BTCUSDT" with
      | some btcPrice =>
          if btcPrice = "" then none
          else some (jsToFixed
            ((calculateTotalBalance (nonZeroBalances bs) ps).div (parseFloat btcPrice)) 8)
      | none => none := by
  simp [balanceData]

/-- C3: for every balance list of non-negative decimal quantities and every
price table of decimal prices, the reported `total`, `available` and
`inOrders` are finite, `total` equals `available + inOrders` to within one
cent, and `available` and `inOrders` each equal the cent-rounded valuation
re-run with the opposite component zeroed (`available` with every `locked`
zeroed; `inOrders`, computed by the code as a difference, provably equals
the rounded valuation with every `free` zeroed). -/
theorem total_available_inOrders_invariant (balances : List Balance)
    (prices : List (String × String)) (hw : wfBalances balances = true)
    (hp : pricesOK prices = true) :
    ∃ t a o : ℚ,
      (balanceData balances prices).total = JNum.num t ∧
      (balanceData balances prices).available = JNum.num a ∧
      (balanceData balances prices).inOrders = JNum.num o ∧
      |t - (a + o)| ≤ 1/100 ∧
      (balanceData balances prices).available =
        roundCents (calculateTotalBalance
          ((nonZeroBalances balances).map (fun b => { b with locked := "0" })) prices) ∧
      (balanceData balances prices).inOrders =
        roundCents (calculateTotalBalance
          ((nonZeroBalances balances).map (fun b => { b with free := "0" })) prices) := by
  have hwnz : wfBalances (nonZeroBalances balances) = true := wfBalances_filter _ _ hw
  have hwl : wfBalances
      ((nonZeroBalances balances).map (fun b => { b with locked := "0" })) = true :=
    wfBalances_zeroLocked _ hwnz
  have hwf : wfBalances
      ((nonZeroBalances balances).map (fun b => { b with free := "0" })) = true :=
    wfBalances_zeroFree _ hwnz
  set nz := nonZeroBalances balances with hnz
  set A : ℚ := (((nz.map (fun b => { b with locked := "0" })).map (contribQ prices)).sum)
  set O : ℚ := (((nz.map (fun b => { b with free := "0" })).map (contribQ prices)).sum)
  have hT : calculateTotalBalance nz prices = JNum.num (A + O) := by
    rw [calculateTotalBalance_sum nz prices hp hwnz, contribQ_sum_split prices nz hwnz]
  have hAv : calculateTotalBalance
      (nz.map (fun b => { b with locked := "0" })) prices = JNum.num A :=
    calculateTotalBalance_sum _ prices hp hwl
  have hOv : calculateTotalBalance
      (nz.map (fun b => { b with free := "0" })) prices = JNum.num O :=
    calculateTotalBalance_sum _ prices hp hwf
  have hsub : (JNum.num (A + O)).sub (JNum.num A) = JNum.num O := by
    simp [JNum.sub]
  refine ⟨((⌊(A + O) * 100 + 1/2⌋ : ℤ) : ℚ) / 100, ((⌊A * 100 + 1/2⌋ : ℤ) : ℚ) / 100,
    ((⌊O * 100 + 1/2⌋ : ℤ) : ℚ) / 100, ?_, ?_, ?_, ?_, ?_, ?_⟩
  · rw [balanceData_total, ← hnz, hT, roundCents_num]
  · rw [balanceData_available, ← hnz, hAv, roundCents_num]
  · rw [balanceData_inOrders, ← hnz, hT, hAv, hsub, roundCents_num]
  · exact round_cents_close A O
  · rw [balanceData_available, ← hnz]
  · rw [balanceData_inOrders, ← hnz, hT, hAv, hOv, hsub]

/-- C3 witness: the invariant instantiated at the end-to-end scenario
input. -/
theorem total_available_inOrders_invariant_witness :
    wfBalances [⟨"BTC", "0.5", "0.1"⟩, ⟨"USDT", "100", "0"⟩] = true ∧
    pricesOK [("BTCUSDT", "30000")] = true ∧
    (∃ t a o : ℚ,
      (balanceData [⟨"BTC", "0.5", "0.1"⟩, ⟨"USDT", "100", "0"⟩]
        [("BTCUSDT", "30000")]).total = JNum.num t ∧
      (balanceData [⟨"BTC", "0.5", "0.1"⟩, ⟨"USDT", "100", "0"⟩]
        [("BTCUSDT", "30000")]).available = JNum.num a ∧
      (balanceData [⟨"BTC", "0.5", "0.1"⟩, ⟨"USDT", "100", "0"⟩]
        [("BTCUSDT", "30000")]).inOrders = JNum.num o ∧
      |t - (a + o)| ≤ 1/100 ∧
      (balanceData [⟨"BTC", "0.5", "0.1"⟩, ⟨"USDT", "100", "0"⟩]
        [("BTCUSDT", "30000")]).available =
        roundCents (calculateTotalBalance
          ((nonZeroBalances [⟨"BTC", "0.5", "0.1"⟩, ⟨"USDT", "100", "0"⟩]).map
            (fun b => { b with locked := "0" })) [("BTCUSDT", "30000")]) ∧
      (balanceData [⟨"BTC", "0.5", "0.1"⟩, ⟨"USDT", "100", "0"⟩]
        [("BTCUSDT", "30000")]).inOrders =
        roundCents (calculateTotalBalance
          ((nonZeroBalances [⟨"BTC", "0.5", "0.1"⟩, ⟨"USDT", "100", "0"⟩]).map
            (fun b => { b with free := "0" })) [("BTCUSDT", "30000")])) :=
  ⟨by decide, by decide,
   total_available_inOrders_invariant _ _ (by decide) (by decide)⟩

/-- C7: the end-to-end scenario — balances BTC 0.5 free, 0.1 locked and
USDT 100 free with the BTCUSDT price 30000 give total 18100, available
15100, inOrders 3000, and the BTC equivalent string 0.60333333. -/
theorem end_to_end_scenario :
    (balanceData [⟨"BTC", "0.5", "0.1"⟩, ⟨"USDT", "100", "0"⟩]
      [("BTCUSDT", "30000")]).total = JNum.num 18100 ∧
    (balanceData [⟨"BTC", "0.5", "0.1"⟩, ⟨"USDT", "100", "0"⟩]
      [("BTCUSDT", "30000")]).available = JNum.num 15100 ∧
    (balanceData [⟨"BTC", "0.5", "0.1"⟩, ⟨"USDT", "100", "0"⟩]
      [("BTCUSDT", "30000")]).inOrders = JNum.num 3000 ∧
    (balanceData [⟨"BTC", "0.5", "0.1"⟩, ⟨"USDT", "100", "0"⟩]
      [("BTCUSDT", "30000")]).btcValue = some "0.60333333" := by
  refine ⟨?_, ?_, ?_, ?_⟩ <;> decide

/-- C8: the per-asset array filters on the raw parsed total, not the quote
value: the unpriced XYZ entry stays in the list with raw total 10 and
usdtValue 0 while the reported total is 0; and in general a mapped entry of
a kept balance is in the output exactly when its raw total is positive. -/
theorem perAsset_filter_on_raw_total :
    (balanceData [⟨"XYZ", "10", "0"⟩] []).total = JNum.num 0 ∧
    (balanceData [⟨"XYZ", "10", "0"⟩] []).balances =
      [⟨"XYZ", JNum.num 10, JNum.num 0, JNum.num 10, JNum.num 0⟩] ∧
    ∀ (balances : List Balance) (prices : List (String × String)) (b : Balance),
      b ∈ nonZeroBalances balances →
      (mkPerAsset prices b ∈ (balanceData balances prices).balances ↔
        (mkPerAsset prices b).total.gt0 = true) := by
  refine ⟨by decide, by decide, ?_⟩
  intro balances prices b hb
  rw [balanceData_perAsset]
  constructor
  · intro hmem
    exact (List.mem_filter.1 hmem).2
  · intro hgt
    exact List.mem_filter.2 ⟨List.mem_map_of_mem _ hb, hgt⟩

/-- C8 witness: the general filter equivalence applied to the XYZ entry. -/
theorem perAsset_filter_on_raw_total_witness :
    (⟨"XYZ", "10", "0"⟩ : Balance) ∈ nonZeroBalances [⟨"XYZ", "10", "0"⟩] ∧
    (mkPerAsset [] ⟨"XYZ", "10", "0"⟩ ∈ (balanceData [⟨"XYZ", "10", "0"⟩] []).balances ↔
      (mkPerAsset [] ⟨"XYZ", "10", "0"⟩).total.gt0 = true) :=
  ⟨by decide, perAsset_filter_on_raw_total.2.2 _ _ _ (by decide)⟩

/-- C9: the health handler is a total function: for every configuration,
including both credentials absent, it answers status 200; a flag is false
when its credential is absent and true when a non-empty value is present. -/
theorem healthHandler_flags (apiKey secretKey : Option String) :
    (healthHandler apiKey secretKey).status = 200 ∧
    (apiKey = none → (healthHandler apiKey secretKey).apiKeyConfigured = false) ∧
    (secretKey = none → (healthHandler apiKey secretKey).secretKeyConfigured = false) ∧
    (∀ k, apiKey = some k → k ≠ "" →
      (healthHandler apiKey secretKey).apiKeyConfigured = true) ∧
    (∀ k, secretKey = some k → k ≠ "" →
      (healthHandler apiKey secretKey).secretKeyConfigured = true) := by
  refine ⟨rfl, ?_, ?_, ?_, ?_⟩
  · rintro rfl; rfl
  · rintro rfl; rfl
  · rintro k rfl hk
    simp [healthHandler, envTruthy, hk]
  · rintro k rfl hk
    simp [healthHandler, envTruthy, hk]

/-- C9 witness: both credentials absent give 200 with both flags false;
non-empty values give true flags. -/
theorem healthHandler_flags_witness :
    (healthHandler none none).status = 200 ∧
    (healthHandler none none).apiKeyConfigured = false ∧
    (healthHandler none none).secretKeyConfigured = false ∧
    (healthHandler (some "k") (some "s")).apiKeyConfigured = true ∧
    (healthHandler (some "k") (some "s")).secretKeyConfigured = true :=
  ⟨(healthHandler_flags none none).1,
   (healthHandler_flags none none).2.1 rfl,
   (healthHandler_flags none none).2.2.1 rfl,
   (healthHandler_flags (some "k") (some "s")).2.2.2.1 "k" rfl (by decide),
   (healthHandler_flags (some "k") (some "s")).2.2.2.2 "s" rfl (by decide)⟩

/-- True on a result that did not throw. -/
def isOkBool : Except String (List (String × String)) → Bool
  | Except.ok _ => true
  | Except.error _ => false

/-- C2 counterexample: variant 3's sign, called with the empty secret on
the empty parameter set, does not fail at all — it signs with the empty
HMAC key — refuting the claim that signing fails with a configuration
error whenever the secret is empty or absent. -/
theorem sign_empty_secret_succeeds : isOkBool (sign "" 1700000000000 []) = true := rfl

/-- C2 amended: in the two variants that do check, an empty (or absent,
which reads as empty) secret makes `generateSignature` and therefore
`createSignedParams` fail with the configuration error SECRET_KEY is not
configured, for every parameter set including the empty one; in the code
the check sits inside the signature step, after the timestamp injection
and the query-string serialization, and variant 3's `sign` does not check
at all. -/
theorem createSignedParams_empty_secret_error (now : ℕ) (params : List (String × String))
    (queryString : String) :
    generateSignature "" queryString = Except.error "SECRET_KEY is not configured" ∧
    createSignedParams "" now params = Except.error "SECRET_KEY is not configured" :=
  ⟨rfl, rfl⟩

/-- C4 counterexample: with a known but zero BTCUSDT price string the
field is present, holding the string Infinity, where the claim requires
omission; and the 8-digit figure is rounded, not truncated —
199.999999 / 200 = 0.999999995 renders as 1.00000000, where truncation
would give 0.99999999. -/
theorem btcValue_counterexample :
    (balanceData [⟨"USDT", "1", "0"⟩] [("BTCUSDT", "0")]).btcValue = some "Infinity" ∧
    (balanceData [⟨"USDT", "199.999999", "0"⟩] [("BTCUSDT", "200")]).btcValue =
      some "1.00000000" := by
  refine ⟨?_, ?_⟩ <;> decide

/-- C4 amended: the BTC-equivalent field is present exactly when the table
holds a `BTCUSDT` entry with a non-empty (truthy) price string — presence
does not require the price to be nonzero — and when present it is
`toFixed(8)` of the unrounded total divided by the parsed price, which
rounds ties away from zero rather than truncating, and renders a
zero-price division as the Infinity or NaN strings instead of omitting
the field. -/
theorem btcValue_presence_and_formula (balances : List Balance)
    (prices : List (String × String)) :
    ((balanceData balances prices).btcValue ≠ none ↔
      ∃ p, priceLookup prices "BTCUSDT" = some p ∧ p ≠ "") ∧
    (∀ p, priceLookup prices "BTCUSDT" = some p → p ≠ "" →
      (balanceData balances prices).btcValue =
        some (jsToFixed
          ((calculateTotalBalance (nonZeroBalances balances) prices).div
            (parseFloat p)) 8)) := by
  have hbv := balanceData_btcValue balances prices
  cases hlk : priceLookup prices "BTCUSDT" with
  | none =>
      simp only [hlk] at hbv
      constructor
      · rw [hbv]
        simp
      · intro p hp
        simp at hp
  | some p0 =>
      simp only [hlk] at hbv
      by_cases hpe : p0 = ""
      · subst hpe
        rw [if_pos rfl] at hbv
        constructor
        · rw [hbv]
          simp
        · intro p hp hne
          injection hp with h
          exact absurd h.symm hne
      · rw [if_neg hpe] at hbv
        constructor
        · rw [hbv]
          constructor
          · intro _
            exact ⟨p0, rfl, hpe⟩
          · intro _
            simp
        · intro p hp hne
          injection hp with h
          subst h
          exact hbv

/-- C4 amended witness: the formula evaluated with a genuine price. -/
theorem btcValue_presence_and_formula_witness :
    (balanceData [⟨"USDT", "1", "0"⟩] [("BTCUSDT", "30000")]).btcValue =
      some (jsToFixed
        ((calculateTotalBalance (nonZeroBalances [⟨"USDT", "1", "0"⟩])
          [("BTCUSDT", "30000")]).div (parseFloat "30000")) 8) :=
  (btcValue_presence_and_formula _ _).2 "30000" (by decide) (by decide)

theorem hexDigit_mem (n : ℕ) (h : n < 16) : hexDigit n ∈ hexCharsLower :=
  List.mem_map_of_mem _ (List.mem_range.2 h)

theorem bytesToHex_lowercase (bs : List ℕ) :
    ∀ c ∈ (bytesToHex bs).data, c ∈ hexCharsLower := by
  unfold bytesToHex
  rw [show ∀ (l : List Char), (String.mk l).data = l from fun l => rfl]
  induction bs with
  | nil => intro c hc; cases hc
  | cons b rest ih =>
      intro c hc
      rw [List.foldr_cons] at hc
      cases hc with
      | head => exact hexDigit_mem _ (Nat.mod_lt _ (by norm_num))
      | tail _ hc2 =>
          cases hc2 with
          | head => exact hexDigit_mem _ (Nat.mod_lt _ (by norm_num))
          | tail _ hc3 => exact ih c hc3

/-- C5: for every non-empty secret, parameter set and fixed timestamp, the
signed output is exactly the original parameters, then a timestamp field
carrying the injected epoch-millisecond clock value, then a signature
field holding the hex HMAC-SHA256, keyed by the secret, of the
form-urlencoded query string of all parameters with the timestamp
appended in insertion order; and that signature uses only the sixteen
lowercase hex digits. -/
theorem createSignedParams_shape (secret : String) (now : ℕ)
    (params : List (String × String)) (hsecret : secret ≠ "") :
    createSignedParams secret now params =
      Except.ok (params ++ [("timestamp", toString now),
        ("signature", bytesToHex (hmacSha256 (strBytes secret)
          (strBytes (urlSearchParamsToString
            (params ++ [("timestamp", toString now)])))))]) ∧
    ∀ c ∈ (bytesToHex (hmacSha256 (strBytes secret)
        (strBytes (urlSearchParamsToString
          (params ++ [("timestamp", toString now)]))))).data, c ∈ hexCharsLower := by
  constructor
  · simp only [createSignedParams, generateSignature, hmacSha256Hex]
    rw [if_neg hsecret]
  · exact fun c hc => bytesToHex_lowercase _ c hc

/-- C5 witness: the shape at a concrete secret, clock value and singleton
parameter set. -/
theorem createSignedParams_shape_witness :
    createSignedParams "key" 1700000000000 [("symbol", "BTCUSDT")] =
      Except.ok ([("symbol", "BTCUSDT")] ++ [("timestamp", toString 1700000000000),
        ("signature", bytesToHex (hmacSha256 (strBytes "key")
          (strBytes (urlSearchParamsToString
            ([("symbol", "BTCUSDT")] ++ [("timestamp", toString 1700000000000)])))))]) :=
  (createSignedParams_shape "key" 1700000000000 [("symbol", "BTCUSDT")] (by decide)).1

deriving instance DecidableEq for Except

set_option maxRecDepth 200000 in
/-- C6: with the clock injected, signing is a function of secret, time and
parameters — two runs on equal parameter sets agree — and the sample pair
of parameter sets differing in one value yields different signed outputs,
with different signature strings. -/
theorem signing_deterministic_and_sample_difference :
    (∀ (secret : String) (now : ℕ) (ps1 ps2 : List (String × String)),
      ps1 = ps2 → createSignedParams secret now ps1 = createSignedParams secret now ps2) ∧
    createSignedParams "key" 1700000000000 [("a", "1")] ≠
      createSignedParams "key" 1700000000000 [("a", "2")] ∧
    hmacSha256Hex "key" (urlSearchParamsToString
        [("a", "1"), ("timestamp", toString 1700000000000)]) ≠
      hmacSha256Hex "key" (urlSearchParamsToString
        [("a", "2"), ("timestamp", toString 1700000000000)]) := by
  refine ⟨?_, ?_, ?_⟩
  · intro secret now ps1 ps2 h
    rw [h]
  · decide
  · decide

/-- C6 witness: determinism applied at a concrete input. -/
theorem signing_deterministic_witness :
    createSignedParams "key" 1700000000000 [("a", "1")] =
      createSignedParams "key" 1700000000000 [("a", "1")] :=
  signing_deterministic_and_sample_difference.1 "key" 1700000000000 _ _ rfl
